import Mathlib

/-!
Verification of the HiPS survey-properties parser and accessors
(hips/tiles/surveys.py) via a shallow embedding.

Python strings are modelled as lists of characters; the ordered
dictionary built by the parser is modelled as an association list in
insertion order (assignment to an existing key replaces its value in
place, assignment to a fresh key appends).
-/

/-- Python strings modelled as lists of characters. -/
abbrev Str := List Char

/-- The ordered string-to-string mapping held in a record's data attribute. -/
abbrev PropData := List (Str × Str)

/-- Model of the whitespace class used by Python str.strip (ASCII part). -/
def pyIsSpace (c : Char) : Bool :=
  c = ' ' ∨ c = '\t' ∨ c = '\n' ∨ c = '\r' ∨ c = '\x0b' ∨ c = '\x0c'

/-- Model of Python str.strip: drop whitespace from both ends. -/
def pyStrip (s : Str) : Str :=
  ((s.dropWhile pyIsSpace).reverse.dropWhile pyIsSpace).reverse

/-- Model of Python str.split(sep) for a one-character separator:
all occurrences separate, empty parts are kept. -/
def splitChar (sep : Char) : Str → List Str
  | [] => [[]]
  | c :: rest =>
    if c = sep then [] :: splitChar sep rest
    else ((c :: (splitChar sep rest).headD []) :: (splitChar sep rest).tail)

/-- Model of Python line.startswith of a one-character argument. -/
def startsWithChar (c : Char) : Str → Bool
  | [] => false
  | d :: _ => d = c

/-- Ordered-dict assignment data[k] = v: replace the value in place when the
key is present, append the new pair when it is not. -/
def odInsert (d : PropData) (k v : Str) : PropData :=
  if k ∈ d.map Prod.fst then
    d.map (fun p => if p.1 = k then (k, v) else p)
  else
    d ++ [(k, v)]

/-- Ordered-dict lookup data[k], returning none when the key is absent. -/
def odFind (k : Str) : PropData → Option Str
  | [] => none
  | (k', v) :: rest => if k = k' then some v else odFind k rest

/-- One iteration of the parse loop of HipsSurveyProperties.parse: skip empty
and comment lines, split the line on every equals sign, strip each part, and
store the pair when the split yields exactly two parts (the ValueError raised
by unpacking any other number of parts is caught and the line skipped). -/
def parseLine (d : PropData) (line : Str) : PropData :=
  if line = [] ∨ startsWithChar '#' line then d
  else
    match (splitChar '=' line).map pyStrip with
    | [k, v] => odInsert d k v
    | _ => d

/-- HipsSurveyProperties.parse: fold the parse loop over the newline-split
lines of the text, starting from an empty ordered dict. -/
def HipsSurveyProperties.parse (text : Str) : PropData :=
  (splitChar '\n' text).foldl parseLine []

/-- Python exceptions that the parse loop body can raise. -/
inductive PyErr where
  | valueError
  | keyError
deriving DecidableEq, Repr

/-- The tuple unpacking key, value = parts: raises ValueError unless the
list has exactly two elements. -/
def unpackPair (parts : List Str) : Except PyErr (Str × Str) :=
  match parts with
  | [k, v] => .ok (k, v)
  | _ => .error .valueError

/-- The try-block body of one parse-loop iteration, with the possible
ValueError made explicit. -/
def parseLineTry (d : PropData) (line : Str) : Except PyErr PropData :=
  if line = [] ∨ startsWithChar '#' line then .ok d
  else do
    let (k, v) ← unpackPair ((splitChar '=' line).map pyStrip)
    return odInsert d k v

/-- One parse-loop iteration with the except-ValueError-continue handler:
a ValueError from the try block leaves the dict unchanged, any other
exception would propagate. -/
def parseLineCaught (d : PropData) (line : Str) : Except PyErr PropData :=
  match parseLineTry d line with
  | .ok d' => .ok d'
  | .error .valueError => .ok d
  | .error e => .error e

/-- HipsSurveyProperties.parse in the exception monad: the whole loop, with
each iteration's exception behaviour explicit. -/
def parseExc (text : Str) : Except PyErr PropData :=
  (splitChar '\n' text).foldlM parseLineCaught []

/-- Errors raised by the typed accessors, named as in the specification:
a missing backing key, an unparseable numeric field, an unknown frame. -/
inductive AccessError where
  | missingField
  | invalidFormat
  | unknownFrame
deriving DecidableEq, Repr

/-- Dict access self.data[k] inside an accessor: a missing key raises the
error surfaced to the caller as MissingFieldError. -/
def getField (d : PropData) (k : Str) : Except AccessError Str :=
  match odFind k d with
  | some v => .ok v
  | none => .error .missingField

/-- Value of a nonempty string of decimal digits. -/
def digitsVal (ds : Str) : Nat :=
  ds.foldl (fun a c => a * 10 + (c.toNat - 48)) 0

/-- A nonempty all-digit string parses to its value, anything else fails. -/
def decDigits (ds : Str) : Option Nat :=
  if ds ≠ [] ∧ ds.all Char.isDigit then some (digitsVal ds) else none

/-- Model of Python int() applied to a string: strip surrounding whitespace,
allow one optional sign, then require a nonempty run of decimal digits. -/
def pyToInt (s : Str) : Option Int :=
  match pyStrip s with
  | '-' :: ds => (decDigits ds).map (fun n => -(n : Int))
  | '+' :: ds => (decDigits ds).map (fun n => (n : Int))
  | ds => (decDigits ds).map (fun n => (n : Int))

/-- Model of Python s.rsplit(sep, 1)[0] for a one-character separator:
everything before the last occurrence of sep, or s itself when sep is
absent. -/
def pyRsplitOneHead (sep : Char) (s : Str) : Str :=
  if sep ∈ s then
    ((s.reverse.dropWhile (fun c => decide (¬ c = sep))).drop 1).reverse
  else s

/-- The class-level HIPS-to-astropy frame lookup table. -/
def HipsSurveyProperties.hips_to_astropy_frame_mapping : List (Str × Str) :=
  [("equatorial".data, "icrs".data),
   ("galactic".data, "galactic".data),
   ("ecliptic".data, "ecliptic".data)]

/-- Accessor title: self.data of key obs_title. -/
def HipsSurveyProperties.title (d : PropData) : Except AccessError Str :=
  getField d ("obs_title".data)

/-- Accessor hips_version: self.data of key hips_version. -/
def HipsSurveyProperties.hips_version (d : PropData) : Except AccessError Str :=
  getField d ("hips_version".data)

/-- Accessor hips_frame: self.data of key hips_frame. -/
def HipsSurveyProperties.hips_frame (d : PropData) : Except AccessError Str :=
  getField d ("hips_frame".data)

/-- Accessor astropy_frame: the frame table applied to hips_frame; a frame
string outside the table raises the error named UnknownFrameError. -/
def HipsSurveyProperties.astropy_frame (d : PropData) : Except AccessError Str := do
  let f ← HipsSurveyProperties.hips_frame d
  match odFind f HipsSurveyProperties.hips_to_astropy_frame_mapping with
  | some a => .ok a
  | none => .error .unknownFrame

/-- Accessor hips_order: int() of self.data of key hips_order. -/
def HipsSurveyProperties.hips_order (d : PropData) : Except AccessError Int := do
  let v ← getField d ("hips_order".data)
  match pyToInt v with
  | some n => .ok n
  | none => .error .invalidFormat

/-- Accessor tile_format: self.data of key hips_tile_format. -/
def HipsSurveyProperties.tile_format (d : PropData) : Except AccessError Str :=
  getField d ("hips_tile_format".data)

/-- Accessor base_url: self.data of key moc_access_url with the final
slash-delimited segment stripped via rsplit. -/
def HipsSurveyProperties.base_url (d : PropData) : Except AccessError Str := do
  let v ← getField d ("moc_access_url".data)
  return pyRsplitOneHead '/' v

/-- Accessor tile_width: int() of self.data of key hips_tile_width, with a
zero result replaced by 512 by the or-expression. -/
def HipsSurveyProperties.tile_width (d : PropData) : Except AccessError Int := do
  let v ← getField d ("hips_tile_width".data)
  match pyToInt v with
  | some n => .ok (if n = 0 then 512 else n)
  | none => .error .invalidFormat

/-- Accessor hips_service_url: self.data of key hips_service_url. -/
def HipsSurveyProperties.hips_service_url (d : PropData) : Except AccessError Str :=
  getField d ("hips_service_url".data)

/-- The method directory: bucket index (ipix // 10000) * 10000, with
Python floor division. -/
def HipsSurveyProperties.directory (ipix : Int) : Int :=
  ipix.fdiv 10000 * 10000

/-- Model of Python str() applied to an int. -/
def intStr (i : Int) : Str :=
  if i < 0 then '-' :: Nat.toDigits 10 i.natAbs else Nat.toDigits 10 i.toNat

/-- The method tile_access_url: base_url + '/Norder' + str(order) + '/Dir'
+ str(directory(ipix)) + '/'. -/
def HipsSurveyProperties.tile_access_url (d : PropData) (order ipix : Int) :
    Except AccessError Str := do
  let b ← HipsSurveyProperties.base_url d
  return b ++ ("/Norder".data) ++ intStr order ++ ("/Dir".data) ++
    intStr (HipsSurveyProperties.directory ipix) ++ ("/".data)

/-- Model of Python text.split of the two-character separator of two
newlines: all non-overlapping occurrences separate, left to right. -/
def split2NL : Str → List Str
  | [] => [[]]
  | '\n' :: '\n' :: rest => [] :: split2NL rest
  | c :: rest => (c :: (split2NL rest).headD []) :: (split2NL rest).tail

/-- HipsSurveyPropertiesList.parse: split the text on blank lines and parse
each block, appending the records in block order. -/
def HipsSurveyPropertiesList.parse (text : Str) : List PropData :=
  (split2NL text).foldl (fun data b => data ++ [HipsSurveyProperties.parse b]) []

/-- The CSV column list of the table property: the sorted set of keys
appearing in any record. -/
def tableFieldnames (records : List PropData) : List Str :=
  List.insertionSort (fun a b => a ≤ b)
    ((records.map (fun r => r.map Prod.fst)).flatten.dedup)

/-- Model of csv.DictWriter writing one record: a ValueError when the record
holds a key outside the field list, otherwise one cell per field, the
record's value there, or the empty restval when the key is absent. -/
def dictToRow (fieldnames : List Str) (row : PropData) : Except PyErr (List Str) :=
  if row.all (fun p => decide (p.1 ∈ fieldnames)) then
    .ok (fieldnames.map (fun k => (odFind k row).getD []))
  else .error .valueError

/-- HipsSurveyPropertiesList.table, up to the CSV text round trip: the
sorted-union header plus one written row per record. -/
def HipsSurveyPropertiesList.table (records : List PropData) :
    Except PyErr (List Str × List (List Str)) := do
  let fieldnames := tableFieldnames records
  let rows ← records.mapM (dictToRow fieldnames)
  return (fieldnames, rows)

/-- The key-value pair a single line contributes, if any: the content of
one parse-loop iteration as a partial extraction function. -/
def lineKV (line : Str) : Option (Str × Str) :=
  if line = [] ∨ startsWithChar '#' line then none
  else
    match (splitChar '=' line).map pyStrip with
    | [k, v] => some (k, v)
    | _ => none

/-- All surviving key-value pairs of a text, in line order, duplicates
included. -/
def extractPairs (text : Str) : List (Str × Str) :=
  (splitChar '\n' text).filterMap lineKV

/-- Append a key to an accumulator unless already present. -/
def seenAdd (acc : List Str) (k : Str) : List Str :=
  if k ∈ acc then acc else acc ++ [k]

/-- The distinct members of a list in order of first appearance. -/
def firstOccs (ks : List Str) : List Str :=
  ks.foldl seenAdd []

/-- Whether a string contains the blank-line separator, two consecutive
newlines, as a contiguous substring. -/
def hasNLNL : Str → Bool
  | '\n' :: '\n' :: _ => true
  | _ :: rest => hasNLNL rest
  | [] => false

/-- A text consisting of the given blocks joined by the blank-line
separator. -/
def joinBlocks : List Str → Str
  | [] => []
  | [b] => b
  | b :: bs => b ++ '\n' :: '\n' :: joinBlocks bs

theorem split2NL_nil : split2NL [] = [[]] := rfl

theorem split2NL_sep (t : Str) : split2NL ('\n' :: '\n' :: t) = [] :: split2NL t := rfl

theorem split2NL_cons (c : Char) (t : Str) (h : ¬(c = '\n' ∧ t.head? = some '\n')) :
    split2NL (c :: t) = (c :: (split2NL t).headD []) :: (split2NL t).tail := by
  conv_lhs => unfold split2NL
  split
  · rename_i heq; exact absurd heq (by simp)
  · rename_i t' heq
    rw [List.cons_eq_cons] at heq
    refine absurd ⟨heq.1, ?_⟩ h
    rw [heq.2]
    rfl
  · rename_i c' rest hno heq
    rw [List.cons_eq_cons] at heq
    rw [heq.1, heq.2]

theorem hasNLNL_sep (t : Str) : hasNLNL ('\n' :: '\n' :: t) = true := rfl

theorem hasNLNL_cons (c : Char) (t : Str) (h : ¬(c = '\n' ∧ t.head? = some '\n')) :
    hasNLNL (c :: t) = hasNLNL t := by
  conv_lhs => unfold hasNLNL
  split
  · rename_i t' heq
    rw [List.cons_eq_cons] at heq
    refine absurd ⟨heq.1, ?_⟩ h
    rw [heq.2]
    rfl
  · rename_i c' rest hno heq
    rw [List.cons_eq_cons] at heq
    rw [heq.2]
  · rename_i heq; exact absurd heq (by simp)

theorem not_sep_head (c : Char) (t : Str) (h : hasNLNL (c :: t) = false) :
    ¬(c = '\n' ∧ t.head? = some '\n') := by
  intro hc
  obtain ⟨hc1, hc2⟩ := hc
  subst hc1
  cases t with
  | nil => simp at hc2
  | cons d t' =>
    have hd : d = '\n' := by simpa using hc2
    subst hd
    rw [hasNLNL_sep] at h
    cases h

theorem hasNLNL_tail (c : Char) (t : Str) (h : hasNLNL (c :: t) = false) :
    hasNLNL t = false := by
  rw [hasNLNL_cons c t (not_sep_head c t h)] at h
  exact h

theorem split2NL_no_sep (s : Str) (h : hasNLNL s = false) : split2NL s = [s] := by
  induction s with
  | nil => rfl
  | cons c t ih =>
    have hns := not_sep_head c t h
    rw [split2NL_cons c t hns, ih (hasNLNL_tail c t h)]
    rfl

theorem split2NL_append (b t : Str) (hb : hasNLNL b = false)
    (hlast : b.getLast? ≠ some '\n') :
    split2NL (b ++ '\n' :: '\n' :: t) = b :: split2NL t := by
  induction b with
  | nil => simp [split2NL_sep]
  | cons c b' ih =>
    have hns := not_sep_head c b' hb
    have hb' : hasNLNL b' = false := hasNLNL_tail c b' hb
    have hcons : ¬(c = '\n' ∧ (b' ++ '\n' :: '\n' :: t).head? = some '\n') := by
      intro hc
      obtain ⟨hc1, hc2⟩ := hc
      cases b' with
      | nil =>
        exact hlast (by rw [hc1]; rfl)
      | cons d b'' =>
        exact hns ⟨hc1, by simpa using hc2⟩
    have hlast' : b'.getLast? ≠ some '\n' := by
      cases b' with
      | nil => simp
      | cons d b'' =>
        intro hl
        apply hlast
        rw [List.getLast?_cons_cons]
        exact hl
    rw [List.cons_append, split2NL_cons c _ hcons, ih hb' hlast']
    rfl

theorem joinBlocks_cons (b : Str) (b' : Str) (bs : List Str) :
    joinBlocks (b :: b' :: bs) = b ++ '\n' :: '\n' :: joinBlocks (b' :: bs) := rfl

theorem split2NL_joinBlocks (bs : List Str) (hne : bs ≠ [])
    (hb : ∀ b ∈ bs, hasNLNL b = false)
    (hl : ∀ b ∈ bs.dropLast, b.getLast? ≠ some '\n') :
    split2NL (joinBlocks bs) = bs := by
  induction bs with
  | nil => exact absurd rfl hne
  | cons b bs' ih =>
    cases bs' with
    | nil =>
      show split2NL b = [b]
      exact split2NL_no_sep b (hb b (by simp))
    | cons b2 bs'' =>
      rw [joinBlocks_cons, split2NL_append _ _ (hb b (by simp))
        (hl b (by rw [List.dropLast_cons₂]; exact List.mem_cons_self b _)),
        ih (by simp) (fun x hx => hb x (List.mem_cons_of_mem b hx))
          (fun x hx => hl x (by rw [List.dropLast_cons₂]; exact List.mem_cons_of_mem b hx))]

theorem foldl_append_eq_map (f : Str → PropData) (l : List Str) :
    ∀ init : List PropData,
      l.foldl (fun data b => data ++ [f b]) init = init ++ l.map f := by
  induction l with
  | nil => intro init; simp
  | cons b l' ih => intro init; simp [ih]

theorem listParse_eq_map (text : Str) :
    HipsSurveyPropertiesList.parse text =
      (split2NL text).map HipsSurveyProperties.parse := by
  rw [HipsSurveyPropertiesList.parse, foldl_append_eq_map]
  rfl

theorem odFind_nil (k : Str) : odFind k [] = none := rfl

theorem odFind_cons (k k' v : Str) (rest : PropData) :
    odFind k ((k', v) :: rest) = if k = k' then some v else odFind k rest := rfl

theorem odInsert_map_fst (d : PropData) (k v : Str) :
    (odInsert d k v).map Prod.fst = seenAdd (d.map Prod.fst) k := by
  unfold odInsert seenAdd
  by_cases h : k ∈ d.map Prod.fst
  · rw [if_pos h, if_pos h, List.map_map]
    apply List.map_congr_left
    intro p hp
    by_cases hpk : p.1 = k
    · simp [hpk]
    · simp [hpk]
  · rw [if_neg h, if_neg h, List.map_append]
    rfl

theorem odFind_eq_none (k : Str) (d : PropData) :
    odFind k d = none ↔ k ∉ d.map Prod.fst := by
  induction d with
  | nil => simp [odFind_nil]
  | cons p d' ih =>
    obtain ⟨k', v⟩ := p
    rw [odFind_cons]
    by_cases h : k = k' <;> simp [h, ih]

theorem odFind_append (k : Str) (d₁ d₂ : PropData) :
    odFind k (d₁ ++ d₂) = (odFind k d₁).or (odFind k d₂) := by
  induction d₁ with
  | nil => simp [odFind_nil, Option.none_or]
  | cons p d' ih =>
    obtain ⟨k', v⟩ := p
    rw [List.cons_append, odFind_cons, odFind_cons]
    by_cases h : k = k' <;> simp [h, ih]

theorem odFind_replace_self (d : PropData) (k v : Str) (h : k ∈ d.map Prod.fst) :
    odFind k (d.map (fun p => if p.1 = k then (k, v) else p)) = some v := by
  induction d with
  | nil => simp at h
  | cons p d' ih =>
    obtain ⟨k', w⟩ := p
    by_cases hp : k' = k
    · simp only [List.map_cons, if_pos (show (k', w).1 = k from hp)]
      rw [odFind_cons, if_pos rfl]
    · simp only [List.map_cons, if_neg (show ¬(k', w).1 = k from hp)]
      rw [odFind_cons, if_neg (fun hh : k = k' => hp hh.symm)]
      apply ih
      have : ¬ k = k' := fun hh => hp hh.symm
      simpa [this] using h

theorem odFind_replace_ne (d : PropData) (k k' v : Str) (h : k ≠ k') :
    odFind k (d.map (fun p => if p.1 = k' then (k', v) else p)) = odFind k d := by
  induction d with
  | nil => rfl
  | cons p d' ih =>
    obtain ⟨a, w⟩ := p
    by_cases hp : a = k'
    · simp only [List.map_cons, if_pos (show (a, w).1 = k' from hp)]
      rw [odFind_cons, odFind_cons, if_neg h, if_neg (hp ▸ h), ih]
    · simp only [List.map_cons, if_neg (show ¬(a, w).1 = k' from hp)]
      rw [odFind_cons, odFind_cons]
      by_cases hk : k = a <;> simp [hk, ih]

theorem odFind_odInsert_self (d : PropData) (k v : Str) :
    odFind k (odInsert d k v) = some v := by
  unfold odInsert
  by_cases h : k ∈ d.map Prod.fst
  · rw [if_pos h]
    exact odFind_replace_self d k v h
  · rw [if_neg h, odFind_append, (odFind_eq_none k d).mpr h, Option.none_or,
      odFind_cons, if_pos rfl]

theorem odFind_odInsert_ne (d : PropData) (k k' v : Str) (h : k ≠ k') :
    odFind k (odInsert d k' v) = odFind k d := by
  unfold odInsert
  by_cases hm : k' ∈ d.map Prod.fst
  · rw [if_pos hm]
    exact odFind_replace_ne d k k' v h
  · rw [if_neg hm, odFind_append, odFind_cons, if_neg h, odFind_nil, Option.or_none]

theorem foldl_odInsert_map_fst (ps : List (Str × Str)) :
    ∀ d : PropData,
      ((ps.foldl (fun d p => odInsert d p.1 p.2) d).map Prod.fst) =
        (ps.map Prod.fst).foldl seenAdd (d.map Prod.fst) := by
  induction ps with
  | nil => intro d; rfl
  | cons p ps' ih =>
    intro d
    rw [List.foldl_cons, List.map_cons, List.foldl_cons, ih, odInsert_map_fst]

theorem seenAdd_nodup (acc : List Str) (k : Str) (h : acc.Nodup) :
    (seenAdd acc k).Nodup := by
  unfold seenAdd
  by_cases hm : k ∈ acc
  · rwa [if_pos hm]
  · rw [if_neg hm]
    simp [List.nodup_append, h, hm]

theorem foldl_seenAdd_nodup (ks : List Str) :
    ∀ acc : List Str, acc.Nodup → (ks.foldl seenAdd acc).Nodup := by
  induction ks with
  | nil => intro acc h; exact h
  | cons k ks' ih =>
    intro acc h
    rw [List.foldl_cons]
    exact ih _ (seenAdd_nodup acc k h)

theorem odFind_foldl_odInsert (ps : List (Str × Str)) (k : Str) :
    ∀ d : PropData,
      odFind k (ps.foldl (fun d p => odInsert d p.1 p.2) d) =
        ((ps.filter (fun p => decide (p.1 = k))).getLast?.map Prod.snd).or
          (odFind k d) := by
  induction ps with
  | nil => intro d; simp [Option.none_or]
  | cons p ps' ih =>
    intro d
    rw [List.foldl_cons, ih, List.filter_cons]
    by_cases hp : p.1 = k
    · subst hp
      rw [odFind_odInsert_self, if_pos (by simp)]
      cases hf : List.filter (fun q => decide (q.1 = p.1)) ps' with
      | nil => simp
      | cons q qs =>
        rw [List.getLast?_cons_cons]
        cases hq : (q :: qs).getLast? with
        | none => simp at hq
        | some x => simp
    · rw [odFind_odInsert_ne d k p.1 p.2 (fun hh => hp hh.symm)]
      simp [hp]

theorem parseLine_eq_lineKV (d : PropData) (line : Str) :
    parseLine d line =
      match lineKV line with
      | some p => odInsert d p.1 p.2
      | none => d := by
  unfold parseLine lineKV
  by_cases h : line = [] ∨ startsWithChar '#' line = true
  · simp only [if_pos h]
  · simp only [if_neg h]
    cases hm : (splitChar '=' line).map pyStrip with
    | nil => rfl
    | cons a t =>
      cases t with
      | nil => rfl
      | cons b t2 =>
        cases t2 with
        | nil => rfl
        | cons c t3 => rfl

theorem foldl_parseLine_eq (lines : List Str) :
    ∀ d : PropData,
      lines.foldl parseLine d =
        (lines.filterMap lineKV).foldl (fun d p => odInsert d p.1 p.2) d := by
  induction lines with
  | nil => intro d; rfl
  | cons line lines' ih =>
    intro d
    rw [List.foldl_cons, List.filterMap_cons, parseLine_eq_lineKV]
    cases hk : lineKV line with
    | none => exact ih d
    | some p => rw [List.foldl_cons]; exact ih _

theorem parse_eq_foldl_extract (text : Str) :
    HipsSurveyProperties.parse text =
      (extractPairs text).foldl (fun d p => odInsert d p.1 p.2) [] := by
  rw [HipsSurveyProperties.parse, extractPairs, foldl_parseLine_eq]

theorem parseLineCaught_eq_ok (d : PropData) (line : Str) :
    parseLineCaught d line = Except.ok (parseLine d line) := by
  unfold parseLineCaught parseLineTry parseLine unpackPair
  by_cases h : line = [] ∨ startsWithChar '#' line = true
  · simp only [if_pos h]
  · simp only [if_neg h]
    cases hm : (splitChar '=' line).map pyStrip with
    | nil => rfl
    | cons a t =>
      cases t with
      | nil => rfl
      | cons b t2 =>
        cases t2 with
        | nil => rfl
        | cons c t3 => rfl

theorem foldlM_caught_ok (lines : List Str) :
    ∀ d : PropData,
      lines.foldlM parseLineCaught d = Except.ok (lines.foldl parseLine d) := by
  induction lines with
  | nil => intro d; rfl
  | cons line lines' ih =>
    intro d
    rw [List.foldlM_cons, parseLineCaught_eq_ok]
    exact ih (parseLine d line)

theorem splitChar_no_sep (sep : Char) (a : Str) (h : sep ∉ a) :
    splitChar sep a = [a] := by
  induction a with
  | nil => rfl
  | cons c a' ih =>
    have hc : ¬ c = sep := fun hh => h (hh ▸ List.mem_cons_self c a')
    rw [splitChar, if_neg hc, ih (fun hm => h (List.mem_cons_of_mem c hm))]
    rfl

theorem splitChar_append (sep : Char) (a b : Str) (h : sep ∉ a) :
    splitChar sep (a ++ sep :: b) = a :: splitChar sep b := by
  induction a with
  | nil => rw [List.nil_append, splitChar, if_pos rfl]
  | cons c a' ih =>
    have hc : ¬ c = sep := fun hh => h (hh ▸ List.mem_cons_self c a')
    rw [List.cons_append, splitChar, if_neg hc,
      ih (fun hm => h (List.mem_cons_of_mem c hm))]
    rfl

theorem dropWhile_append_all (p : Char → Bool) (a t : Str) (h : ∀ c ∈ a, p c) :
    List.dropWhile p (a ++ t) = List.dropWhile p t := by
  induction a with
  | nil => rfl
  | cons c a' ih =>
    rw [List.cons_append, List.dropWhile_cons, if_pos (h c (List.mem_cons_self c a'))]
    exact ih (fun x hx => h x (List.mem_cons_of_mem c hx))

theorem dropWhile_append_last (p : Char → Bool) (l : Str) (c : Char)
    (h : ¬ p c = true) :
    List.dropWhile p (l ++ [c]) = List.dropWhile p l ++ [c] := by
  induction l with
  | nil => rw [List.nil_append, List.dropWhile_cons, if_neg h]; rfl
  | cons x l' ih =>
    rw [List.cons_append, List.dropWhile_cons, List.dropWhile_cons]
    by_cases hx : p x
    · rw [if_pos hx, if_pos hx, ih]
    · rw [if_neg hx, if_neg hx, List.cons_append]

theorem pyStrip_dropWhile_fix (k : Str) (h : pyStrip k = k) :
    k.dropWhile pyIsSpace = k := by
  have hsub : (k.dropWhile pyIsSpace).Sublist k := (List.dropWhile_suffix pyIsSpace).sublist
  apply hsub.eq_of_length
  have h1 : (pyStrip k).length ≤ (k.dropWhile pyIsSpace).length := by
    unfold pyStrip
    rw [List.length_reverse]
    calc ((k.dropWhile pyIsSpace).reverse.dropWhile pyIsSpace).length
        ≤ (k.dropWhile pyIsSpace).reverse.length :=
          (List.dropWhile_suffix pyIsSpace).sublist.length_le
      _ = (k.dropWhile pyIsSpace).length := List.length_reverse _
  have h2 : (k.dropWhile pyIsSpace).length ≤ k.length := hsub.length_le
  rw [h] at h1
  omega

theorem pyStrip_right_fix (k : Str) (h : pyStrip k = k) :
    (k.reverse.dropWhile pyIsSpace).reverse = k := by
  have hd := pyStrip_dropWhile_fix k h
  unfold pyStrip at h
  rw [hd] at h
  exact h

theorem pyStrip_head_not_space (c : Char) (k' : Str)
    (h : pyStrip (c :: k') = c :: k') : ¬ pyIsSpace c = true := by
  intro hc
  have hd := pyStrip_dropWhile_fix (c :: k') h
  rw [List.dropWhile_cons, if_pos hc] at hd
  have : (List.dropWhile pyIsSpace k').length ≤ k'.length :=
    (List.dropWhile_suffix pyIsSpace).sublist.length_le
  rw [hd] at this
  simp at this

theorem pyStrip_all_space (s : Str) (h : ∀ c ∈ s, pyIsSpace c) : pyStrip s = [] := by
  unfold pyStrip
  rw [List.dropWhile_eq_nil_iff.mpr h]
  rfl

theorem pyStrip_pad (a b k : Str) (ha : ∀ c ∈ a, pyIsSpace c)
    (hb : ∀ c ∈ b, pyIsSpace c) (hk : pyStrip k = k) :
    pyStrip (a ++ k ++ b) = k := by
  cases k with
  | nil =>
    apply pyStrip_all_space
    intro c hc
    rw [List.append_nil] at hc
    rcases List.mem_append.mp hc with h1 | h2
    · exact ha c h1
    · exact hb c h2
  | cons c0 k' =>
    have hc0 : ¬ pyIsSpace c0 = true := pyStrip_head_not_space c0 k' hk
    unfold pyStrip
    rw [List.append_assoc, dropWhile_append_all pyIsSpace a _ ha,
      List.cons_append, List.dropWhile_cons, if_neg hc0, ← List.cons_append,
      List.reverse_append, dropWhile_append_all pyIsSpace b.reverse _
        (fun c hc => hb c (List.mem_reverse.mp hc))]
    exact pyStrip_right_fix (c0 :: k') hk

theorem pyStrip_hash_head (a : Str) :
    pyStrip ('#' :: a) = '#' :: ((a.reverse.dropWhile pyIsSpace).reverse) ∧
    (pyStrip ('#' :: a)).head? = some '#' := by
  have hh : ¬ pyIsSpace '#' = true := by decide
  have h1 : pyStrip ('#' :: a) = '#' :: ((a.reverse.dropWhile pyIsSpace).reverse) := by
    unfold pyStrip
    rw [List.dropWhile_cons, if_neg hh]
    show (('#' :: a).reverse.dropWhile pyIsSpace).reverse = _
    rw [List.reverse_cons, dropWhile_append_last pyIsSpace a.reverse '#' hh,
      List.reverse_append]
    rfl
  exact ⟨h1, by rw [h1]; rfl⟩

theorem startsWithChar_head (c : Char) (l : Str) :
    startsWithChar c l = true ↔ l.head? = some c := by
  cases l with
  | nil => simp [startsWithChar]
  | cons d t => simp [startsWithChar]

theorem pyStrip_space_left (a t : Str) (h : ∀ c ∈ a, pyIsSpace c) :
    pyStrip (a ++ t) = pyStrip t := by
  unfold pyStrip
  rw [dropWhile_append_all pyIsSpace a t h]

theorem hips_order_eq (d : PropData) :
    HipsSurveyProperties.hips_order d =
      match odFind ("hips_order".data) d with
      | none => Except.error AccessError.missingField
      | some v =>
        match pyToInt v with
        | some n => Except.ok n
        | none => Except.error AccessError.invalidFormat := by
  unfold HipsSurveyProperties.hips_order getField
  cases odFind ("hips_order".data) d <;> rfl

theorem astropy_frame_eq (d : PropData) :
    HipsSurveyProperties.astropy_frame d =
      match odFind ("hips_frame".data) d with
      | none => Except.error AccessError.missingField
      | some f =>
        match odFind f HipsSurveyProperties.hips_to_astropy_frame_mapping with
        | some a => Except.ok a
        | none => Except.error AccessError.unknownFrame := by
  unfold HipsSurveyProperties.astropy_frame HipsSurveyProperties.hips_frame getField
  cases odFind ("hips_frame".data) d <;> rfl

theorem tile_width_eq (d : PropData) :
    HipsSurveyProperties.tile_width d =
      match odFind ("hips_tile_width".data) d with
      | none => Except.error AccessError.missingField
      | some v =>
        match pyToInt v with
        | some n => Except.ok (if n = 0 then 512 else n)
        | none => Except.error AccessError.invalidFormat := by
  unfold HipsSurveyProperties.tile_width getField
  cases odFind ("hips_tile_width".data) d <;> rfl

theorem base_url_eq (d : PropData) :
    HipsSurveyProperties.base_url d =
      match odFind ("moc_access_url".data) d with
      | none => Except.error AccessError.missingField
      | some v => Except.ok (pyRsplitOneHead '/' v) := by
  unfold HipsSurveyProperties.base_url getField
  cases odFind ("moc_access_url".data) d <;> rfl

theorem frameMap_eq_none_iff (f : Str) :
    odFind f HipsSurveyProperties.hips_to_astropy_frame_mapping = none ↔
      f ≠ ("equatorial".data) ∧ f ≠ ("galactic".data) ∧ f ≠ ("ecliptic".data) := by
  unfold HipsSurveyProperties.hips_to_astropy_frame_mapping
  rw [odFind_cons, odFind_cons, odFind_cons]
  by_cases h1 : f = "equatorial".data <;> by_cases h2 : f = "galactic".data <;>
    by_cases h3 : f = "ecliptic".data <;> simp [h1, h2, h3, odFind_nil]

theorem dictToRow_ok (fn : List Str) (r : PropData)
    (h : ∀ k ∈ r.map Prod.fst, k ∈ fn) :
    dictToRow fn r = Except.ok (fn.map (fun k => (odFind k r).getD [])) := by
  unfold dictToRow
  rw [if_pos]
  rw [List.all_eq_true]
  intro p hp
  exact decide_eq_true (h p.1 (List.mem_map_of_mem Prod.fst hp))

theorem mapM_dictToRow (fn : List Str) (records : List PropData)
    (h : ∀ r ∈ records, ∀ k ∈ r.map Prod.fst, k ∈ fn) :
    records.mapM (dictToRow fn) =
      Except.ok (records.map (fun r => fn.map (fun k => (odFind k r).getD []))) := by
  induction records with
  | nil => rfl
  | cons r rs ih =>
    rw [List.mapM_cons, dictToRow_ok fn r (h r (List.mem_cons_self r rs)),
      ih (fun x hx => h x (List.mem_cons_of_mem r hx))]
    rfl

theorem tableFieldnames_mem (records : List PropData) (k : Str) :
    k ∈ tableFieldnames records ↔ ∃ r ∈ records, k ∈ r.map Prod.fst := by
  unfold tableFieldnames
  rw [(List.perm_insertionSort _ _).mem_iff, List.mem_dedup, List.mem_flatten]
  simp

theorem tableFieldnames_nodup (records : List PropData) :
    (tableFieldnames records).Nodup := by
  unfold tableFieldnames
  exact (List.perm_insertionSort _ _).nodup_iff.mpr (List.nodup_dedup _)

theorem tableFieldnames_sorted (records : List PropData) :
    List.Sorted (fun a b : Str => a ≤ b) (tableFieldnames records) :=
  List.sorted_insertionSort _ _

/-- Claim C1: for a record whose mapping holds the key moc_access_url,
tile_access_url(order, tileIndex) is base_url followed by the literal
segment Norder with the order, the literal segment Dir with the
floor-division bucket (tileIndex div 10000) times 10000, and a trailing
slash; with the stated concrete directory and URL examples. -/
theorem C1_tile_access_url (d : PropData) (u : Str)
    (h : odFind ("moc_access_url".data) d = some u) :
    (∀ order ipix : Int,
      HipsSurveyProperties.tile_access_url d order ipix =
        Except.ok (pyRsplitOneHead '/' u ++ ("/Norder".data) ++ intStr order ++
          ("/Dir".data) ++ intStr (ipix.fdiv 10000 * 10000) ++ ("/".data))) ∧
    HipsSurveyProperties.directory 23456 = 20000 ∧
    HipsSurveyProperties.directory 9999 = 0 ∧
    HipsSurveyProperties.directory 10000 = 10000 ∧
    HipsSurveyProperties.tile_access_url
        [(("moc_access_url".data), ("http://host/DSS/Moc.fits".data))] 9 23456 =
      Except.ok ("http://host/DSS/Norder9/Dir20000/".data) := by
  refine ⟨?_, by decide, by decide, by decide, by rfl⟩
  intro order ipix
  unfold HipsSurveyProperties.tile_access_url HipsSurveyProperties.base_url getField
  rw [h]
  rfl

/-- Witness for claim C1 at a concrete record, order and tile index. -/
theorem C1_tile_access_url_witness :
    HipsSurveyProperties.tile_access_url
        [(("moc_access_url".data), ("http://host/DSS/Moc.fits".data))] 9 23456 =
      Except.ok (pyRsplitOneHead '/' ("http://host/DSS/Moc.fits".data) ++
        ("/Norder".data) ++ intStr 9 ++ ("/Dir".data) ++
        intStr ((23456 : Int).fdiv 10000 * 10000) ++ ("/".data)) :=
  (C1_tile_access_url
    [(("moc_access_url".data), ("http://host/DSS/Moc.fits".data))]
    ("http://host/DSS/Moc.fits".data) (by decide)).1 9 23456

/-- Claim C7: with key hips_tile_width present and its value parsing as the
integer n, the tile_width accessor returns 512 when n is zero and n
otherwise. -/
theorem C7_tile_width (d : PropData) (v : Str) (n : Int)
    (h1 : odFind ("hips_tile_width".data) d = some v) (h2 : pyToInt v = some n) :
    HipsSurveyProperties.tile_width d = Except.ok (if n = 0 then 512 else n) := by
  unfold HipsSurveyProperties.tile_width getField
  rw [h1]
  show (match pyToInt v with
    | some m => Except.ok (if m = 0 then 512 else m)
    | none => Except.error AccessError.invalidFormat) =
      Except.ok (if n = 0 then 512 else n)
  rw [h2]

/-- Witness for claim C7: a stored width of zero yields the default 512. -/
theorem C7_tile_width_witness :
    HipsSurveyProperties.tile_width [(("hips_tile_width".data), ("0".data))] =
      Except.ok (if (0 : Int) = 0 then 512 else 0) :=
  C7_tile_width [(("hips_tile_width".data), ("0".data))] ("0".data) 0
    (by decide) (by decide)

/-- Claim C9: the directory bucket of any integer tile index, negatives
included, is the multiple of 10000 at or below it, within 10000 of it, and
a fixed point of the bucketing map. -/
theorem C9_directory (ipix : Int) :
    10000 ∣ HipsSurveyProperties.directory ipix ∧
    HipsSurveyProperties.directory ipix ≤ ipix ∧
    ipix < HipsSurveyProperties.directory ipix + 10000 ∧
    HipsSurveyProperties.directory (HipsSurveyProperties.directory ipix) =
      HipsSurveyProperties.directory ipix := by
  have hfd : ∀ a : Int, a.fdiv 10000 = a / 10000 := fun a =>
    Int.fdiv_eq_ediv a (by norm_num)
  unfold HipsSurveyProperties.directory
  rw [hfd, hfd]
  have h1 : 0 ≤ ipix % 10000 := Int.emod_nonneg ipix (by norm_num)
  have h2 : ipix % 10000 < 10000 := Int.emod_lt_of_pos ipix (by norm_num)
  have h3 : 10000 * (ipix / 10000) + ipix % 10000 = ipix := Int.ediv_add_emod ipix 10000
  refine ⟨⟨ipix / 10000, mul_comm _ _⟩, by omega, by omega, ?_⟩
  rw [Int.mul_ediv_cancel _ (by norm_num)]

/-- Claim C6: the parsed mapping lists each key once, in order of first
appearance among the surviving lines, and the stored value for a key is the
one from the last surviving line carrying that key. -/
theorem C6_parse_keys (text : Str) :
    ((HipsSurveyProperties.parse text).map Prod.fst).Nodup ∧
    (HipsSurveyProperties.parse text).map Prod.fst =
      firstOccs ((extractPairs text).map Prod.fst) ∧
    ∀ k : Str, odFind k (HipsSurveyProperties.parse text) =
      ((extractPairs text).filter (fun p => decide (p.1 = k))).getLast?.map
        Prod.snd := by
  refine ⟨?_, ?_, ?_⟩
  · rw [parse_eq_foldl_extract, foldl_odInsert_map_fst]
    exact foldl_seenAdd_nodup _ _ (by simp)
  · rw [parse_eq_foldl_extract, foldl_odInsert_map_fst]
    rfl
  · intro k
    rw [parse_eq_foldl_extract, odFind_foldl_odInsert, odFind_nil, Option.or_none]

/-- Claim C8: the parse loop in the exception monad always returns ok, the
caught ValueError leaving the dict of the failing line unchanged. -/
theorem C8_parse_total :
    (∀ text : Str, parseExc text = Except.ok (HipsSurveyProperties.parse text)) ∧
    (∀ (d : PropData) (line : Str),
      parseLineCaught d line = Except.ok (parseLine d line)) := by
  constructor
  · intro text
    rw [parseExc, HipsSurveyProperties.parse]
    exact foldlM_caught_ok (splitChar '\n' text) []
  · exact parseLineCaught_eq_ok

/-- Claim C5: each typed accessor fails with the missing-field error exactly
when its backing key is absent; hips_order additionally fails with the
invalid-format error on an unparseable value, and astropy_frame fails with
the unknown-frame error exactly when the stored frame is none of equatorial,
galactic, ecliptic, which map to icrs, galactic, ecliptic. -/
theorem C5_accessors (d : PropData) :
    (HipsSurveyProperties.title d = Except.error AccessError.missingField ↔
      odFind ("obs_title".data) d = none) ∧
    (HipsSurveyProperties.hips_version d = Except.error AccessError.missingField ↔
      odFind ("hips_version".data) d = none) ∧
    (HipsSurveyProperties.hips_frame d = Except.error AccessError.missingField ↔
      odFind ("hips_frame".data) d = none) ∧
    (HipsSurveyProperties.hips_order d = Except.error AccessError.missingField ↔
      odFind ("hips_order".data) d = none) ∧
    (HipsSurveyProperties.tile_format d = Except.error AccessError.missingField ↔
      odFind ("hips_tile_format".data) d = none) ∧
    (HipsSurveyProperties.base_url d = Except.error AccessError.missingField ↔
      odFind ("moc_access_url".data) d = none) ∧
    (HipsSurveyProperties.tile_width d = Except.error AccessError.missingField ↔
      odFind ("hips_tile_width".data) d = none) ∧
    (HipsSurveyProperties.hips_service_url d = Except.error AccessError.missingField ↔
      odFind ("hips_service_url".data) d = none) ∧
    (HipsSurveyProperties.astropy_frame d = Except.error AccessError.missingField ↔
      odFind ("hips_frame".data) d = none) ∧
    (HipsSurveyProperties.hips_order d = Except.error AccessError.invalidFormat ↔
      ∃ v, odFind ("hips_order".data) d = some v ∧ pyToInt v = none) ∧
    (HipsSurveyProperties.astropy_frame d = Except.error AccessError.unknownFrame ↔
      ∃ v, odFind ("hips_frame".data) d = some v ∧
        v ≠ ("equatorial".data) ∧ v ≠ ("galactic".data) ∧ v ≠ ("ecliptic".data)) ∧
    (odFind ("hips_frame".data) d = some ("equatorial".data) →
      HipsSurveyProperties.astropy_frame d = Except.ok ("icrs".data)) ∧
    (odFind ("hips_frame".data) d = some ("galactic".data) →
      HipsSurveyProperties.astropy_frame d = Except.ok ("galactic".data)) ∧
    (odFind ("hips_frame".data) d = some ("ecliptic".data) →
      HipsSurveyProperties.astropy_frame d = Except.ok ("ecliptic".data)) := by
  refine ⟨?_, ?_, ?_, ?_, ?_, ?_, ?_, ?_, ?_, ?_, ?_, ?_, ?_, ?_⟩
  · cases hf : odFind ("obs_title".data) d <;>
      simp [HipsSurveyProperties.title, getField, hf]
  · cases hf : odFind ("hips_version".data) d <;>
      simp [HipsSurveyProperties.hips_version, getField, hf]
  · cases hf : odFind ("hips_frame".data) d <;>
      simp [HipsSurveyProperties.hips_frame, getField, hf]
  · rw [hips_order_eq]
    cases hf : odFind ("hips_order".data) d with
    | none => simp
    | some v => cases hp : pyToInt v <;> simp [hp]
  · cases hf : odFind ("hips_tile_format".data) d <;>
      simp [HipsSurveyProperties.tile_format, getField, hf]
  · rw [base_url_eq]
    cases hf : odFind ("moc_access_url".data) d <;> simp
  · rw [tile_width_eq]
    cases hf : odFind ("hips_tile_width".data) d with
    | none => simp
    | some v => cases hp : pyToInt v <;> simp [hp]
  · cases hf : odFind ("hips_service_url".data) d <;>
      simp [HipsSurveyProperties.hips_service_url, getField, hf]
  · rw [astropy_frame_eq]
    cases hf : odFind ("hips_frame".data) d with
    | none => simp
    | some f =>
      cases hm : odFind f HipsSurveyProperties.hips_to_astropy_frame_mapping <;>
        simp [hm]
  · rw [hips_order_eq]
    cases hf : odFind ("hips_order".data) d with
    | none => simp
    | some v => cases hp : pyToInt v <;> simp [hp]
  · rw [astropy_frame_eq]
    cases hf : odFind ("hips_frame".data) d with
    | none => simp
    | some f =>
      cases hm : odFind f HipsSurveyProperties.hips_to_astropy_frame_mapping with
      | none =>
        simp only [hm]
        simpa using (frameMap_eq_none_iff f).mp hm
      | some a =>
        have hne : ¬(f ≠ ("equatorial".data) ∧ f ≠ ("galactic".data) ∧
            f ≠ ("ecliptic".data)) := by
          intro h3
          rw [(frameMap_eq_none_iff f).mpr h3] at hm
          cases hm
        simp only [hm]
        constructor
        · intro h
          exact absurd h (by simp)
        · intro h
          obtain ⟨v, hv, h3⟩ := h
          rw [Option.some_inj] at hv
          exact absurd (hv ▸ h3) hne
  · intro hf
    rw [astropy_frame_eq, hf]
    rfl
  · intro hf
    rw [astropy_frame_eq, hf]
    rfl
  · intro hf
    rw [astropy_frame_eq, hf]
    rfl

/-- Witness for claim C5: a record storing the equatorial frame maps to the
astropy icrs frame. -/
theorem C5_accessors_witness :
    HipsSurveyProperties.astropy_frame [(("hips_frame".data), ("equatorial".data))] =
      Except.ok ("icrs".data) :=
  (C5_accessors
    [(("hips_frame".data), ("equatorial".data))]).2.2.2.2.2.2.2.2.2.2.2.1 (by decide)

/-- Counterexample to claim C2 as stated: the parser does not split on the
first equals sign only, so the line of three equals-separated parts is
dropped entirely rather than stored as the pair of the text before and
after the first equals sign; and a line with an empty part after the
equals sign is stored, not skipped. -/
theorem C2_counterexample :
    HipsSurveyProperties.parse ("a=b=c".data) = [] ∧
    HipsSurveyProperties.parse ("a=b=c".data) ≠ [(("a".data), ("b=c".data))] ∧
    HipsSurveyProperties.parse ("k=".data) = [(("k".data), [])] := by
  refine ⟨by decide, ?_, by decide⟩
  intro h
  have h2 : ([] : PropData) = [(("a".data), ("b=c".data))] := by
    rw [← h]
    decide
  cases h2

/-- Claim C2 as amended: a surviving line is split on every equals sign and
is stored exactly when this yields two parts, each trimmed, empty parts
included; any other part count is silently skipped; in particular a line
of a key and a value around one equals sign with arbitrary surrounding
whitespace stores that trimmed pair. -/
theorem C2_amended_parse (d : PropData) :
    (∀ line : Str, line ≠ [] → startsWithChar '#' line = false →
      (splitChar '=' line).length ≠ 2 → parseLine d line = d) ∧
    (∀ k v w1 w2 w3 w4 : Str,
      (∀ c ∈ w1, pyIsSpace c) → (∀ c ∈ w2, pyIsSpace c) →
      (∀ c ∈ w3, pyIsSpace c) → (∀ c ∈ w4, pyIsSpace c) →
      pyStrip k = k → pyStrip v = v → '=' ∉ k → '=' ∉ v →
      (w1 ++ k ++ w2 ++ '=' :: (w3 ++ v ++ w4)).head? ≠ some '#' →
      parseLine d (w1 ++ k ++ w2 ++ '=' :: (w3 ++ v ++ w4)) = odInsert d k v) := by
  constructor
  · intro line h1 h2 h3
    unfold parseLine
    rw [if_neg (fun hh => hh.elim h1 (fun hs => by rw [h2] at hs; cases hs))]
    cases hm : (splitChar '=' line).map pyStrip with
    | nil => rfl
    | cons a t =>
      cases t with
      | nil => rfl
      | cons b t2 =>
        cases t2 with
        | nil =>
          exfalso
          apply h3
          have hlen := congrArg List.length hm
          simpa using hlen
        | cons c t3 => rfl
  · intro k v w1 w2 w3 w4 h1 h2 h3 h4 hk hv hke hve hhead
    have hA : '=' ∉ w1 ++ k ++ w2 := by
      intro hm
      rcases List.mem_append.mp hm with hm1 | hm2
      · rcases List.mem_append.mp hm1 with hm3 | hm4
        · have := h1 '=' hm3; simp [pyIsSpace] at this
        · exact hke hm4
      · have := h2 '=' hm2; simp [pyIsSpace] at this
    have hB : '=' ∉ w3 ++ v ++ w4 := by
      intro hm
      rcases List.mem_append.mp hm with hm1 | hm2
      · rcases List.mem_append.mp hm1 with hm3 | hm4
        · have := h3 '=' hm3; simp [pyIsSpace] at this
        · exact hve hm4
      · have := h4 '=' hm2; simp [pyIsSpace] at this
    have hne : w1 ++ k ++ w2 ++ '=' :: (w3 ++ v ++ w4) ≠ [] :=
      List.append_ne_nil_of_right_ne_nil _ (by simp)
    have hsw : startsWithChar '#' (w1 ++ k ++ w2 ++ '=' :: (w3 ++ v ++ w4)) = false := by
      cases hh : startsWithChar '#' (w1 ++ k ++ w2 ++ '=' :: (w3 ++ v ++ w4))
      · rfl
      · exact absurd ((startsWithChar_head '#' _).mp hh) hhead
    unfold parseLine
    rw [if_neg (fun hh => hh.elim hne (fun hs => by rw [hsw] at hs; cases hs))]
    rw [splitChar_append '=' _ _ hA, splitChar_no_sep '=' _ hB,
      List.map_cons, List.map_cons, List.map_nil,
      pyStrip_pad w1 w2 k h1 h2 hk, pyStrip_pad w3 w4 v h3 h4 hv]

/-- Witness for the amended claim C2 at a concrete whitespace-padded line. -/
theorem C2_amended_parse_witness :
    parseLine [] ((" ".data) ++ ("k".data) ++ (" ".data) ++
        '=' :: ((" ".data) ++ ("v".data) ++ (" ".data))) =
      odInsert [] ("k".data) ("v".data) :=
  (C2_amended_parse []).2 ("k".data) ("v".data) (" ".data) (" ".data)
    (" ".data) (" ".data) (by decide) (by decide) (by decide) (by decide)
    (by decide) (by decide) (by decide) (by decide) (by decide)

/-- Claim C10: an indented comment line, whitespace then a hash, is not
skipped by the literal first-character comment check; with exactly one
equals sign it is stored as an entry whose trimmed key starts with the
hash character. -/
theorem C10_indented_comment (d : PropData) (w a b : Str) (hw : w ≠ [])
    (hws : ∀ c ∈ w, pyIsSpace c) (ha : '=' ∉ a) (hb : '=' ∉ b) :
    parseLine d (w ++ '#' :: a ++ '=' :: b) =
      odInsert d (pyStrip ('#' :: a)) (pyStrip b) ∧
    (pyStrip ('#' :: a)).head? = some '#' := by
  refine ⟨?_, (pyStrip_hash_head a).2⟩
  have hA : '=' ∉ w ++ '#' :: a := by
    intro hm
    rcases List.mem_append.mp hm with hm1 | hm2
    · have := hws '=' hm1; simp [pyIsSpace] at this
    · rcases List.mem_cons.mp hm2 with hm3 | hm4
      · cases hm3
      · exact ha hm4
  have hne : w ++ '#' :: a ++ '=' :: b ≠ [] := by
    cases w with
    | nil => exact absurd rfl hw
    | cons c w' => simp
  have hsw : startsWithChar '#' (w ++ '#' :: a ++ '=' :: b) = false := by
    cases w with
    | nil => exact absurd rfl hw
    | cons c w' =>
      have hc : ¬ c = '#' := by
        intro hh
        have hcs := hws c (List.mem_cons_self c w')
        rw [hh] at hcs
        simp [pyIsSpace] at hcs
      show decide (c = '#') = false
      simp [hc]
  have hsplit : splitChar '=' (w ++ '#' :: a ++ '=' :: b) =
      (w ++ '#' :: a) :: splitChar '=' b := by
    have hassoc : w ++ '#' :: a ++ '=' :: b = (w ++ '#' :: a) ++ '=' :: b := by
      simp
    rw [hassoc]
    exact splitChar_append '=' _ b hA
  unfold parseLine
  rw [if_neg (fun hh => hh.elim hne (fun hs => by rw [hsw] at hs; cases hs))]
  rw [hsplit, splitChar_no_sep '=' b hb, List.map_cons, List.map_cons, List.map_nil,
    pyStrip_space_left w ('#' :: a) hws]

/-- Witness for claim C10 at a concrete indented comment line. -/
theorem C10_indented_comment_witness :
    parseLine [] ((" ".data) ++ '#' :: ("x".data) ++ '=' :: ("y".data)) =
      odInsert [] (pyStrip ('#' :: ("x".data))) (pyStrip ("y".data)) ∧
    (pyStrip ('#' :: ("x".data))).head? = some '#' :=
  C10_indented_comment [] (" ".data) ("x".data) ("y".data) (by decide)
    (by decide) (by decide) (by decide)

/-- Claim C3: a text of blocks joined by the blank-line separator parses to
exactly one record per block, in block order, each the record parse of its
block, empty or degenerate blocks included. -/
theorem C3_list_parse (bs : List Str) (hne : bs ≠ [])
    (hb : ∀ b ∈ bs, hasNLNL b = false)
    (hl : ∀ b ∈ bs.dropLast, b.getLast? ≠ some '\n') :
    HipsSurveyPropertiesList.parse (joinBlocks bs) =
      bs.map HipsSurveyProperties.parse ∧
    (HipsSurveyPropertiesList.parse (joinBlocks bs)).length = bs.length := by
  have h := split2NL_joinBlocks bs hne hb hl
  constructor
  · rw [listParse_eq_map, h]
  · rw [listParse_eq_map, h, List.length_map]

/-- Witness for claim C3 at a concrete three-block text with a middle
block holding no valid line. -/
theorem C3_list_parse_witness :
    HipsSurveyPropertiesList.parse
        (joinBlocks [("a=1".data), ("junk".data), ("b=2".data)]) =
      [("a=1".data), ("junk".data), ("b=2".data)].map HipsSurveyProperties.parse ∧
    (HipsSurveyPropertiesList.parse
        (joinBlocks [("a=1".data), ("junk".data), ("b=2".data)])).length =
      [("a=1".data), ("junk".data), ("b=2".data)].length :=
  C3_list_parse [("a=1".data), ("junk".data), ("b=2".data)] (by decide)
    (by decide) (by decide)

/-- Claim C4: the table of a parsed catalog has as columns the sorted,
duplicate-free union of all keys over all records, one row per record in
order, each cell the record's value for that column or empty when absent,
and is produced without error for any records, disjoint key sets
included. -/
theorem C4_table (records : List PropData) :
    HipsSurveyPropertiesList.table records =
      Except.ok (tableFieldnames records,
        records.map (fun r =>
          (tableFieldnames records).map (fun k => (odFind k r).getD []))) ∧
    List.Sorted (fun a b : Str => a ≤ b) (tableFieldnames records) ∧
    (tableFieldnames records).Nodup ∧
    (∀ k : Str, k ∈ tableFieldnames records ↔ ∃ r ∈ records, k ∈ r.map Prod.fst) ∧
    (records.map (fun r =>
      (tableFieldnames records).map (fun k => (odFind k r).getD []))).length =
        records.length := by
  refine ⟨?_, tableFieldnames_sorted records, tableFieldnames_nodup records,
    tableFieldnames_mem records, by rw [List.length_map]⟩
  unfold HipsSurveyPropertiesList.table
  dsimp only
  rw [mapM_dictToRow (tableFieldnames records) records
    (fun r hr k hk => (tableFieldnames_mem records k).mpr ⟨r, hr, hk⟩)]
  rfl

/-- Witness for claim C4 at two records with disjoint key sets. -/
theorem C4_table_witness :
    HipsSurveyPropertiesList.table
        [[(("a".data), ("1".data))], [(("b".data), ("2".data))]] =
      Except.ok (tableFieldnames [[(("a".data), ("1".data))], [(("b".data), ("2".data))]],
        [[(("a".data), ("1".data))], [(("b".data), ("2".data))]].map (fun r =>
          (tableFieldnames
            [[(("a".data), ("1".data))], [(("b".data), ("2".data))]]).map
              (fun k => (odFind k r).getD []))) :=
  (C4_table [[(("a".data), ("1".data))], [(("b".data), ("2".data))]]).1
